import Mathlib

/-!
Verification of gitui's git2-hooks hook-path resolution and timeout-bounded
hook runner.

Shallow embedding of `src/git2-hooks/src/hookspath.rs` and
`src/asyncgit/src/sync/hooks.rs`.

Durations are modelled in nanoseconds as `Nat` (`Duration::from_millis m` is
`m * 1000000` ns).  The monotonic clock (`std::time::Instant`) is modelled by
explicit time passing: the loop of `timeout_with_quadratic_backoff` reads
`timer.elapsed()` twice per iteration (once in the deadline guard, once when
computing the remaining budget), and real time may advance between those two
reads.  The parameters `eg` and `ec` give the clock advance between the entry
of an iteration and the guard read, and between the guard read and the clamp
read, respectively.  `thread::sleep d` advances the clock by exactly `d`.

Rust's `Duration` subtraction panics when the result would be negative; the
embedding makes that outcome explicit as a `panicked` result instead of an
exception.  The loop has no intrinsic structural measure (with a zero-overhead
clock it can run forever once the elapsed time sticks at exactly the deadline),
so the recursion is driven by an explicit fuel counter; `fuelOut` marks fuel
exhaustion and theorems supply enough fuel for the runs they describe.
-/

/-- Constant `BASE_MILLIS` from `timeout_with_quadratic_backoff`. -/
def BASE_MILLIS : Nat := 1

/-- Constant `MAX_SLEEP_MILLIS` from `timeout_with_quadratic_backoff`. -/
def MAX_SLEEP_MILLIS : Nat := 50

/-- Conversion `Duration::from_millis`, in nanoseconds. -/
def millisToNanos (m : Nat) : Nat := m * 1000000

/-- Result of a run of `timeout_with_quadratic_backoff`, together with the
list of sleeps (in ns) the loop performed.  `completed` is the `Ok(true)`
return, `timedOut` the `Ok(false)` return, `panicked` the Rust panic raised
by `timeout - timer.elapsed()` when the subtraction would be negative, and
`fuelOut` means the fuel ran out before the loop returned. -/
inductive BackoffOut where
  | completed (sleeps : List Nat)
  | timedOut (sleeps : List Nat)
  | panicked (sleeps : List Nat)
  | fuelOut
deriving DecidableEq, Repr

/-- One loop of `timeout_with_quadratic_backoff`.  `pred t` is the value of
`is_complete()` when called with the clock at `t` ns (the source closure
polls `child.try_wait()`, so completion is a function of time); `attempt`
and `t` are the current attempt counter and clock; `acc` accumulates the
sleeps performed so far. -/
def backoffAux (timeout : Nat) (pred : Nat → Bool) (eg ec : Nat) :
    Nat → Nat → Nat → List Nat → BackoffOut
  | 0, _, _, _ => .fuelOut
  | fuel + 1, attempt, t, acc =>
    if pred t then .completed acc
    else
      let g := t + eg
      if timeout < g then .timedOut acc
      else
        let c := g + ec
        if timeout < c then .panicked acc
        else
          let remaining := timeout - c
          let raw := millisToNanos (min (attempt ^ 2 * BASE_MILLIS) MAX_SLEEP_MILLIS)
          let sleep := if remaining < raw then remaining else raw
          backoffAux timeout pred eg ec fuel (attempt + 1) (c + sleep) (acc ++ [sleep])

/-- Function `timeout_with_quadratic_backoff(timeout, is_complete)`: the timer starts
at 0 and the attempt counter at 1. -/
def timeout_with_quadratic_backoff (fuel : Nat) (timeout : Nat)
    (pred : Nat → Bool) (eg ec : Nat) : BackoffOut :=
  backoffAux timeout pred eg ec fuel 1 0 []

/-- Is `b` a UTF-8 continuation byte (`0x80..=0xBF`)? -/
def isCont (b : Nat) : Bool := 0x80 ≤ b && b ≤ 0xBF

/-- Lower bound for the second byte of a multi-byte UTF-8 sequence with lead
byte `b` (tighter for `0xE0` and `0xF0` to exclude overlong encodings). -/
def cont1Lo (b : Nat) : Nat := if b = 0xE0 then 0xA0 else if b = 0xF0 then 0x90 else 0x80

/-- Upper bound for the second byte of a multi-byte UTF-8 sequence with lead
byte `b` (tighter for `0xED` to exclude surrogates and for `0xF4` to stay
below `U+110000`). -/
def cont1Hi (b : Nat) : Nat := if b = 0xED then 0x9F else if b = 0xF4 then 0x8F else 0xBF

/-- Is `c` admissible as the second byte of a sequence with lead byte `b`? -/
def cont1Ok (b c : Nat) : Bool := cont1Lo b ≤ c && c ≤ cont1Hi b

/-- The Unicode replacement character `U+FFFD`. -/
def replacementChar : Char := Char.ofNat 0xFFFD

/-- Decoder `String::from_utf8_lossy` on a byte list: valid UTF-8 sequences decode to
their scalar values, each maximal valid prefix of an invalid sequence is
replaced by one `U+FFFD`, and decoding resumes at the first offending byte.
Total by construction — decoding never fails. -/
def utf8LossyChars : List Nat → List Char
  | [] => []
  | b :: rest =>
    if b < 0x80 then Char.ofNat b :: utf8LossyChars rest
    else if 0xC2 ≤ b && b ≤ 0xDF then
      match rest with
      | [] => [replacementChar]
      | c1 :: rest1 =>
        if isCont c1 then
          Char.ofNat ((b - 0xC0) * 0x40 + (c1 - 0x80)) :: utf8LossyChars rest1
        else replacementChar :: utf8LossyChars (c1 :: rest1)
    else if 0xE0 ≤ b && b ≤ 0xEF then
      match rest with
      | [] => [replacementChar]
      | c1 :: rest1 =>
        if cont1Ok b c1 then
          match rest1 with
          | [] => [replacementChar]
          | c2 :: rest2 =>
            if isCont c2 then
              Char.ofNat ((b - 0xE0) * 0x1000 + (c1 - 0x80) * 0x40 + (c2 - 0x80)) ::
                utf8LossyChars rest2
            else replacementChar :: utf8LossyChars (c2 :: rest2)
        else replacementChar :: utf8LossyChars (c1 :: rest1)
    else if 0xF0 ≤ b && b ≤ 0xF4 then
      match rest with
      | [] => [replacementChar]
      | c1 :: rest1 =>
        if cont1Ok b c1 then
          match rest1 with
          | [] => [replacementChar]
          | c2 :: rest2 =>
            if isCont c2 then
              match rest2 with
              | [] => [replacementChar]
              | c3 :: rest3 =>
                if isCont c3 then
                  Char.ofNat ((b - 0xF0) * 0x40000 + (c1 - 0x80) * 0x1000 +
                      (c2 - 0x80) * 0x40 + (c3 - 0x80)) :: utf8LossyChars rest3
                else replacementChar :: utf8LossyChars (c3 :: rest3)
            else replacementChar :: utf8LossyChars (c2 :: rest2)
        else replacementChar :: utf8LossyChars (c1 :: rest1)
    else replacementChar :: utf8LossyChars rest

/-- Composition `String::from_utf8_lossy(bytes).to_string()`. -/
def utf8Lossy (bytes : List Nat) : String := String.mk (utf8LossyChars bytes)

/-- Structure `std::process::Output`: exit status (`code = none` models termination by
signal, where `ExitStatus::code()` returns `None`) and the raw captured
stdout / stderr bytes.  `ExitStatus::success()` is `code = some 0`. -/
structure Output where
  code : Option Int
  stdout : List Nat
  stderr : List Nat
deriving DecidableEq, Repr

/-- Enum `git2_hooks::HookResult` (the runner's result enum; variants and fields as
constructed in `hookspath.rs` and matched in `asyncgit/sync/hooks.rs`). -/
inductive GitHookResult where
  | Ok (hook : String)
  | NoHookFound
  | RunNotSuccessful (code : Option Int) (stdout stderr : String) (hook : String)
  | TimedOut (hook : String)
deriving DecidableEq, Repr

/-- Function `hook_result_from_output(hook, &output)`. -/
def hook_result_from_output (hook : String) (output : Output) : GitHookResult :=
  if output.code = some 0 then .Ok hook
  else
    .RunNotSuccessful output.code (utf8Lossy output.stdout) (utf8Lossy output.stderr) hook

/-- Abstract model of the spawned child process: when it exits on its own
(`exitTime` in ns, `none` = never), its exit status and captured output.
`try_wait()` at clock `t` reports completion iff the exit time has passed. -/
structure ProcessModel where
  exitTime : Option Nat
  code : Option Int
  stdout : List Nat
  stderr : List Nat
deriving DecidableEq, Repr

/-- Poll `child.try_wait()?.is_some()` with the clock at `t`. -/
def ProcessModel.exitedBy (p : ProcessModel) (t : Nat) : Bool :=
  match p.exitTime with
  | none => false
  | some e => e ≤ t

/-- The `std::process::Output` obtained from `wait_with_output()`. -/
def ProcessModel.output (p : ProcessModel) : Output := ⟨p.code, p.stdout, p.stderr⟩

/-- Result of `HookPaths::run_hook_with_timeout`: either `Ok(result)` together
with whether `child.kill()` was invoked, or the modelled loop panic, or fuel
exhaustion of the embedded loop. -/
inductive RunOut where
  | ok (result : GitHookResult) (killed : Bool)
  | panicked
  | fuelOut
deriving DecidableEq, Repr

/-- Method `HookPaths::run_hook_with_timeout(args, timeout)` (in ns) over the process
model: zero timeout blocks in `wait_with_output`; a positive timeout runs
`timeout_with_quadratic_backoff` polling `try_wait`, kills the child and
returns `TimedOut{hook}` when the loop reports non-completion, and otherwise
classifies the awaited output. -/
def run_hook_with_timeout (hook : String) (child : ProcessModel)
    (timeout : Nat) (eg ec fuel : Nat) : RunOut :=
  if timeout = 0 then
    .ok (hook_result_from_output hook child.output) false
  else
    match timeout_with_quadratic_backoff fuel timeout child.exitedBy eg ec with
    | .completed _ => .ok (hook_result_from_output hook child.output) false
    | .timedOut _ => .ok (.TimedOut hook) true
    | .panicked _ => .panicked
    | .fuelOut => .fuelOut

/-- Enum `asyncgit::sync::hooks::HookResult` (the façade's caller-visible enum). -/
inductive AsyncHookResult where
  | Ok
  | NotOk (s : String)
  | TimedOut
deriving DecidableEq, Repr

/-- Conversion `impl From<git2_hooks::HookResult> for HookResult` in
`asyncgit/src/sync/hooks.rs`: `Ok`/`NoHookFound` collapse to `Ok`,
`RunNotSuccessful` becomes `NotOk(format!("{stdout}{stderr}"))`, and
`TimedOut` stays distinct. -/
def hookResultFrom : GitHookResult → AsyncHookResult
  | .Ok _ => .Ok
  | .NoHookFound => .Ok
  | .RunNotSuccessful _ stdout stderr _ => .NotOk (stdout ++ stderr)
  | .TimedOut _ => .TimedOut

/-- Constant `CONFIG_HOOKS_PATH`: the configuration key consulted by the resolver. -/
def CONFIG_HOOKS_PATH : String := "core.hooksPath"

/-- Constant `DEFAULT_HOOKS_PATH`: the fixed default hooks directory name. -/
def DEFAULT_HOOKS_PATH : String := "hooks"

/-- The repository collaborator, at its interface boundary: working directory
(`None` for bare repositories), `.git` directory, and the `core.hooksPath`
configuration value (`none` = not configured or unreadable).  Paths are
modelled as Unicode strings, so the source's non-UTF-8 `OsStr` failure branch
(`HooksError::PathToString`) is unreachable in the model. -/
structure Repo where
  workdir : Option String
  gitDir : String
  configHooksPath : Option String

/-- Structure `HookPaths { git, hook, pwd }`. -/
structure HookPaths where
  git : String
  hook : String
  pwd : String
deriving DecidableEq, Repr

/-- The resolver's error type: `PathToString` for non-representable paths and
`InvalidPath` for a failed shell expansion of the configured hooks path. -/
inductive HooksError where
  | PathToString
  | InvalidPath
deriving DecidableEq, Repr

/-- Does the path string start with the separator, i.e. is it absolute? -/
def startsWithSlash (p : String) : Bool :=
  match p.data with
  | [] => false
  | c :: _ => c = '/'

/-- Does the path string end with the separator? -/
def endsWithSlash (s : String) : Bool :=
  match s.data.getLast? with
  | some c => c = '/'
  | none => false

/-- Join `PathBuf::join`: an absolute right operand replaces the base; otherwise
the components are joined with a single separator. -/
def pathJoin (base p : String) : String :=
  if startsWithSlash p then p
  else if base = "" || endsWithSlash base then base ++ p
  else base ++ "/" ++ p

/-- Trim `str::trim_end_matches('/')`: drop every trailing `/`. -/
def trimEndSlashes (s : String) : String :=
  String.mk (s.data.reverse.dropWhile (fun c => c = '/')).reverse

/-- The `for p in paths` loop body of `HookPaths::find_hook`: first candidate
directory whose joined hook path exists on disk (`fs` is the `Path::exists`
oracle). -/
def findHookLoop (fs : String → Bool) (gitDir hook : String) :
    List String → Option String
  | [] => none
  | p :: rest =>
    let cand := pathJoin (pathJoin gitDir p) hook
    if fs cand then some cand else findHookLoop fs gitDir hook rest

/-- Method `HookPaths::find_hook`: search the default hooks directory then each
right-trimmed `other_paths` entry under the `.git` directory; fall back to the
default candidate when nothing exists. -/
def find_hook (fs : String → Bool) (gitDir : String)
    (other_paths : Option (List String)) (hook : String) : String :=
  let paths := DEFAULT_HOOKS_PATH :: (other_paths.getD []).map trimEndSlashes
  match findHookLoop fs gitDir hook paths with
  | some p => p
  | none => pathJoin (pathJoin gitDir DEFAULT_HOOKS_PATH) hook

/-- Method `HookPaths::new`: `expand` models `shellexpand::full` (`none` = expansion
failure), `fs` models `Path::exists`.  A configured `core.hooksPath` is joined
with the hook name and expanded — never searched; otherwise `find_hook` runs
in search mode. -/
def HookPaths.new (expand : String → Option String) (fs : String → Bool)
    (repo : Repo) (other_paths : Option (List String)) (hook : String) :
    Except HooksError HookPaths :=
  let pwd := repo.workdir.getD repo.gitDir
  let git_dir := repo.gitDir
  match repo.configHooksPath with
  | some config_path =>
    match expand (pathJoin config_path hook) with
    | some expanded => .ok ⟨git_dir, expanded, pwd⟩
    | none => .error .InvalidPath
  | none => .ok ⟨git_dir, find_hook fs repo.gitDir other_paths hook, pwd⟩

/-- Oracle for `fs::metadata`: `none` when metadata retrieval fails (in particular
when the path does not exist), `some mode` the POSIX permission bits.
`Path::exists` is `fs::metadata(path).is_ok()`. -/
def pathExists (meta : String → Option Nat) (p : String) : Bool := (meta p).isSome

/-- Unix `is_executable`: `false` on a metadata error, otherwise
`permissions.mode() & 0o111 != 0`. -/
def is_executable (meta : String → Option Nat) (path : String) : Bool :=
  match meta path with
  | none => false
  | some mode => Nat.land mode 0o111 != 0

/-- Windows `is_executable`: unconditionally `true`. -/
def is_executable_windows (_path : String) : Bool := true

/-- Method `HookPaths::found` on Unix: the hook file exists and is executable. -/
def HookPaths.found (meta : String → Option Nat) (self : HookPaths) : Bool :=
  pathExists meta self.hook && is_executable meta self.hook

/-- Method `HookPaths::found` compiled for Windows, where `is_executable` is the
constant-true variant. -/
def HookPaths.foundWindows (meta : String → Option Nat) (self : HookPaths) : Bool :=
  pathExists meta self.hook && is_executable_windows self.hook


/-- Fixture: an expansion oracle that always succeeds with a fixed result. -/
def expandFix : String → Option String := fun _ => some "/home/user/hooks/pre-commit"

/-- Fixture: an expansion oracle that always fails. -/
def expandFail : String → Option String := fun _ => none

/-- Fixture: a filesystem on which no path exists. -/
def fsNone : String → Bool := fun _ => false

/-- Fixture: a filesystem on which every path exists. -/
def fsAll : String → Bool := fun _ => true

/-- Fixture: a repository with `core.hooksPath` configured. -/
def repoCfg : Repo := ⟨some "/wd", "/repo/.git", some "~/hooks"⟩

/-- Fixture: a repository without `core.hooksPath`. -/
def repoNoCfg : Repo := ⟨some "/wd", "/repo/.git", none⟩

example :
    timeout_with_quadratic_backoff 10 (millisToNanos 100)
      (fun t => millisToNanos 5 ≤ t) 0 0 =
    .completed [millisToNanos 1, millisToNanos 4] := by decide

example :
    timeout_with_quadratic_backoff 20 (millisToNanos 190)
      (fun _ => false) 1 0 =
    .timedOut [1000000, 4000000, 9000000, 16000000, 25000000,
      36000000, 49000000, 49999992] := by decide

example :
    timeout_with_quadratic_backoff 3 1000000 (fun _ => false) 0 1 =
    .panicked [999999] := by decide

example : utf8Lossy [0x72, 0x65, 0x6A, 0x65, 0x63, 0x74, 0x65, 0x64, 0x0A] = "rejected\n" := by
  decide

example : utf8Lossy [0x61, 0xFF, 0x62] = "a�b" := by decide

example : utf8Lossy [0xC3, 0xA9] = "é" := by decide

/-- If the completion predicate is false at every instant up to the deadline
and the guard and clamp reads coincide (`ec = 0`), the loop returns `Ok false`
once the fuel covers the guard drift past the deadline.  The clamp keeps every
entry clock at or below the deadline, which is also why the subtraction is
safe in this regime. -/
theorem backoffAux_timedOut_of_never (timeout eg : Nat) (pred : Nat → Bool)
    (hpred : ∀ u, u ≤ timeout → pred u = false) :
    ∀ fuel attempt t acc, t ≤ timeout → timeout < t + fuel * eg →
      ∃ L, backoffAux timeout pred eg 0 fuel attempt t acc = .timedOut L := by
  intro fuel
  induction fuel with
  | zero => intro attempt t acc ht hf; omega
  | succ n ih =>
    intro attempt t acc ht hf
    rw [Nat.succ_mul] at hf
    simp only [backoffAux, hpred t ht, Bool.false_eq_true, if_false]
    by_cases hg : timeout < t + eg
    · rw [if_pos hg]
      exact ⟨acc, rfl⟩
    · rw [if_neg hg, if_neg (by omega : ¬ timeout < t + eg + 0)]
      apply ih
      · split <;> omega
      · split <;> omega

/-- Sleeps recorded by the loop obey the quadratic-with-cap schedule: the
sleep of attempt `n` (position `n - 1` in the list) is at most
`min (n^2 * BASE_MILLIS) MAX_SLEEP_MILLIS` milliseconds; the remaining-budget
clamp can only shrink it further. -/
theorem backoffAux_sleeps_le (timeout : Nat) (pred : Nat → Bool) (eg ec : Nat) :
    ∀ fuel attempt t acc L,
      (backoffAux timeout pred eg ec fuel attempt t acc = .completed L ∨
       backoffAux timeout pred eg ec fuel attempt t acc = .timedOut L ∨
       backoffAux timeout pred eg ec fuel attempt t acc = .panicked L) →
      attempt = acc.length + 1 →
      (∀ i (hi : i < acc.length),
        acc.get ⟨i, hi⟩ ≤ millisToNanos (min ((i + 1) ^ 2 * BASE_MILLIS) MAX_SLEEP_MILLIS)) →
      ∀ i (hi : i < L.length),
        L.get ⟨i, hi⟩ ≤ millisToNanos (min ((i + 1) ^ 2 * BASE_MILLIS) MAX_SLEEP_MILLIS) := by
  intro fuel
  induction fuel with
  | zero =>
    intro attempt t acc L h ha hacc
    simp [backoffAux] at h
  | succ n ih =>
    intro attempt t acc L h ha hacc
    simp only [backoffAux] at h
    by_cases hp : pred t = true
    · rw [if_pos hp] at h
      rcases h with h | h | h <;> cases h <;> exact hacc
    · rw [if_neg hp] at h
      by_cases hg : timeout < t + eg
      · rw [if_pos hg] at h
        rcases h with h | h | h <;> cases h <;> exact hacc
      · rw [if_neg hg] at h
        by_cases hc : timeout < t + eg + ec
        · rw [if_pos hc] at h
          rcases h with h | h | h <;> cases h <;> exact hacc
        · rw [if_neg hc] at h
          apply ih _ _ _ _ h
          · simp [ha]
          · intro i hi
            rw [List.length_append, List.length_cons, List.length_nil] at hi
            by_cases hlt : i < acc.length
            · rw [List.get_eq_getElem, List.getElem_append_left hlt]
              exact hacc i hlt
            · have hieq : i = acc.length := by omega
              rw [List.get_eq_getElem, List.getElem_concat_length _ _ _ hieq]
              have hsl : (if timeout - (t + eg + ec) <
                    millisToNanos (min (attempt ^ 2 * BASE_MILLIS) MAX_SLEEP_MILLIS) then
                      timeout - (t + eg + ec)
                    else millisToNanos (min (attempt ^ 2 * BASE_MILLIS) MAX_SLEEP_MILLIS)) ≤
                  millisToNanos (min (attempt ^ 2 * BASE_MILLIS) MAX_SLEEP_MILLIS) := by
                split <;> omega
              calc _ ≤ millisToNanos (min (attempt ^ 2 * BASE_MILLIS) MAX_SLEEP_MILLIS) := hsl
                _ = millisToNanos (min ((i + 1) ^ 2 * BASE_MILLIS) MAX_SLEEP_MILLIS) := by
                    rw [hieq, ← ha]

/-- With an ideal zero-overhead clock the remaining-budget clamp keeps the
total slept time within the deadline: along the run the entry clock always
equals the sum of the sleeps so far and never exceeds the deadline. -/
theorem backoffAux_sum_le (timeout : Nat) (pred : Nat → Bool) :
    ∀ fuel attempt t acc L,
      (backoffAux timeout pred 0 0 fuel attempt t acc = .completed L ∨
       backoffAux timeout pred 0 0 fuel attempt t acc = .timedOut L) →
      t ≤ timeout → t = acc.sum → L.sum ≤ timeout := by
  intro fuel
  induction fuel with
  | zero =>
    intro attempt t acc L h ht hs
    simp [backoffAux] at h
  | succ n ih =>
    intro attempt t acc L h ht hs
    simp only [backoffAux] at h
    by_cases hp : pred t = true
    · rw [if_pos hp] at h
      rcases h with h | h <;> cases h <;> omega
    · rw [if_neg hp] at h
      by_cases hg : timeout < t + 0
      · rw [if_pos hg] at h
        rcases h with h | h <;> cases h <;> omega
      · rw [if_neg hg, if_neg (by omega : ¬ timeout < t + 0 + 0)] at h
        apply ih _ _ _ _ h
        · split <;> omega
        · rw [List.sum_append, List.sum_cons, List.sum_nil, hs]
          omega

/-- On Nat, `land m 0o111` is nonzero exactly when one of the three execute
permission bits (owner, group, other) is set. -/
theorem land_exec_bits (m : Nat) :
    Nat.land m 73 ≠ 0 ↔ (m.testBit 0 ∨ m.testBit 3 ∨ m.testBit 6) := by
  have hland : m &&& 73 = Nat.land m 73 := rfl
  constructor
  · intro h
    obtain ⟨i, hi⟩ := Nat.ne_zero_implies_bit_true h
    rw [← hland, Nat.testBit_land, Bool.and_eq_true] at hi
    obtain ⟨hm, h73⟩ := hi
    have hilt : i < 7 := by
      by_contra hge
      push_neg at hge
      have hpow : (73 : Nat) < 2 ^ i :=
        lt_of_lt_of_le (by norm_num) (Nat.pow_le_pow_right (by norm_num) hge)
      rw [Nat.testBit_lt_two_pow hpow] at h73
      exact Bool.false_ne_true h73
    interval_cases i <;>
      first
      | (exact absurd h73 (by decide))
      | (exact Or.inl hm)
      | (exact Or.inr (Or.inl hm))
      | (exact Or.inr (Or.inr hm))
  · intro h h0
    have hb : ∀ k, m.testBit k = true → Nat.testBit 73 k = true → False := by
      intro k hk h73k
      have : (m &&& 73).testBit k = true := by
        rw [Nat.testBit_land, hk, h73k]; rfl
      rw [hland, h0, Nat.zero_testBit] at this
      exact Bool.false_ne_true this
    rcases h with h | h | h
    · exact hb 0 h (by decide)
    · exact hb 3 h (by decide)
    · exact hb 6 h (by decide)

/-- The search loop of `find_hook` returns the first element of the joined
candidate list that exists on disk. -/
theorem findHookLoop_eq_findFirst (fs : String → Bool) (gitDir hook : String) :
    ∀ ps : List String,
      findHookLoop fs gitDir hook ps =
        (ps.map (fun p => pathJoin (pathJoin gitDir p) hook)).find? fs := by
  intro ps
  induction ps with
  | nil => rfl
  | cons p rest ih =>
    simp only [findHookLoop, List.map_cons]
    by_cases h : fs (pathJoin (pathJoin gitDir p) hook) = true
    · rw [if_pos h, List.find?_cons_of_pos _ h]
    · rw [if_neg h, ih, List.find?_cons_of_neg _ h]

/-- C1: with a positive deadline, if the process has not exited at any instant
up to the deadline, `run_hook_with_timeout` kills the process and returns the
`TimedOut` outcome as an `Ok` value (never through the error channel); the
`TimedOut` constructor carries only the hook path — no captured stdout or
stderr and no exit code. -/
theorem C1_positive_deadline_times_out (hook : String) (child : ProcessModel)
    (timeout eg fuel : Nat) (hpos : 0 < timeout)
    (hfuel : timeout < fuel * eg)
    (hexit : ∀ u, u ≤ timeout → child.exitedBy u = false) :
    run_hook_with_timeout hook child timeout eg 0 fuel =
      .ok (.TimedOut hook) true := by
  obtain ⟨L, hL⟩ :=
    backoffAux_timedOut_of_never timeout eg child.exitedBy hexit fuel 1 0 []
      (Nat.zero_le _) (by omega)
  unfold run_hook_with_timeout
  rw [if_neg (by omega : ¬ timeout = 0)]
  unfold timeout_with_quadratic_backoff
  rw [hL]

/-- Witness for C1 at a concrete never-exiting process and a 1000ns deadline. -/
theorem C1_positive_deadline_times_out_witness :
    run_hook_with_timeout "/repo/.git/hooks/pre-commit" ⟨none, some 0, [], []⟩
      1000 1 0 1001 = .ok (.TimedOut "/repo/.git/hooks/pre-commit") true :=
  C1_positive_deadline_times_out _ _ _ _ _ (by norm_num) (by norm_num)
    (fun _ _ => rfl)

/-- C2: when `core.hooksPath` is configured, resolution joins it with the hook
name and shell-expands the result; the outcome is independent of the
filesystem (search mode is never consulted, even when nothing exists at the
configured path), a successful expansion is returned as the resolved hook, and
a failed expansion is a hard error rather than a fallback to search. -/
theorem C2_config_path_precedence (expand : String → Option String)
    (fs fs2 : String → Bool) (repo : Repo) (others : Option (List String))
    (hook cp : String) (hcfg : repo.configHooksPath = some cp) :
    HookPaths.new expand fs repo others hook =
      HookPaths.new expand fs2 repo others hook ∧
    (∀ s, expand (pathJoin cp hook) = some s →
      HookPaths.new expand fs repo others hook =
        .ok ⟨repo.gitDir, s, repo.workdir.getD repo.gitDir⟩) ∧
    (expand (pathJoin cp hook) = none →
      HookPaths.new expand fs repo others hook = .error .InvalidPath) := by
  have key : ∀ fsx : String → Bool,
      HookPaths.new expand fsx repo others hook =
        match expand (pathJoin cp hook) with
        | some expanded =>
            .ok ⟨repo.gitDir, expanded, repo.workdir.getD repo.gitDir⟩
        | none => .error .InvalidPath := by
    intro fsx
    unfold HookPaths.new
    rw [hcfg]
  refine ⟨by rw [key fs, key fs2], fun s hs => by rw [key fs, hs],
    fun hn => by rw [key fs, hn]⟩

/-- Witness for C2 at a concrete configured repository, one succeeding and one
failing expansion oracle. -/
theorem C2_config_path_precedence_witness :
    HookPaths.new expandFix fsNone repoCfg none "pre-commit" =
      .ok ⟨"/repo/.git", "/home/user/hooks/pre-commit", "/wd"⟩ ∧
    HookPaths.new expandFail fsNone repoCfg none "pre-commit" =
      .error .InvalidPath :=
  ⟨(C2_config_path_precedence expandFix fsNone fsAll repoCfg none
      "pre-commit" "~/hooks" rfl).2.1 "/home/user/hooks/pre-commit" rfl,
   (C2_config_path_precedence expandFail fsNone fsAll repoCfg none
      "pre-commit" "~/hooks" rfl).2.2 rfl⟩

/-- C3: every sleep the polling loop records for attempt `n` is bounded by
`min (n^2 * 1ms) 50ms` (the remaining-budget clamp can only shrink it, and
with an ideal clock the slept total never exceeds the deadline); and for a
completion predicate that becomes true at 5ms, the loop completes after
sleeps of exactly 1ms and 4ms, i.e. at 5ms total elapsed time. -/
theorem C3_quadratic_backoff_schedule :
    (∀ (fuel timeout : Nat) (pred : Nat → Bool) (eg ec : Nat) (L : List Nat),
      (timeout_with_quadratic_backoff fuel timeout pred eg ec = .completed L ∨
       timeout_with_quadratic_backoff fuel timeout pred eg ec = .timedOut L ∨
       timeout_with_quadratic_backoff fuel timeout pred eg ec = .panicked L) →
      ∀ i (hi : i < L.length),
        L.get ⟨i, hi⟩ ≤
          millisToNanos (min ((i + 1) ^ 2 * BASE_MILLIS) MAX_SLEEP_MILLIS)) ∧
    (∀ (fuel timeout : Nat) (pred : Nat → Bool) (L : List Nat),
      (timeout_with_quadratic_backoff fuel timeout pred 0 0 = .completed L ∨
       timeout_with_quadratic_backoff fuel timeout pred 0 0 = .timedOut L) →
      L.sum ≤ timeout) ∧
    timeout_with_quadratic_backoff 10 (millisToNanos 100)
      (fun t => millisToNanos 5 ≤ t) 0 0 =
      .completed [millisToNanos 1, millisToNanos 4] ∧
    millisToNanos 1 + millisToNanos 4 = millisToNanos 5 := by
  refine ⟨?_, ?_, by decide, by decide⟩
  · intro fuel timeout pred eg ec L h i hi
    simp only [timeout_with_quadratic_backoff] at h
    exact backoffAux_sleeps_le timeout pred eg ec fuel 1 0 [] L h rfl
      (fun i hi => absurd hi (by simp)) i hi
  · intro fuel timeout pred L h
    simp only [timeout_with_quadratic_backoff] at h
    exact backoffAux_sum_le timeout pred fuel 1 0 [] L h (Nat.zero_le _) rfl

/-- Witness for C3's bounded-sleep statement at the concrete 5ms run. -/
theorem C3_quadratic_backoff_schedule_witness :
    [millisToNanos 1, millisToNanos 4].get ⟨0, by norm_num⟩ ≤
      millisToNanos (min ((0 + 1) ^ 2 * BASE_MILLIS) MAX_SLEEP_MILLIS) ∧
    [millisToNanos 1, millisToNanos 4].sum ≤ millisToNanos 100 :=
  ⟨C3_quadratic_backoff_schedule.1 10 (millisToNanos 100)
      (fun t => decide (millisToNanos 5 ≤ t)) 0 0
      [millisToNanos 1, millisToNanos 4] (Or.inl (by decide)) 0 (by norm_num),
   C3_quadratic_backoff_schedule.2.1 10 (millisToNanos 100)
      (fun t => decide (millisToNanos 5 ≤ t))
      [millisToNanos 1, millisToNanos 4] (Or.inl (by decide))⟩

/-- C4: a zero deadline opts out of the polling machinery entirely — the run
blocks in `wait_with_output` and classifies the outcome from the exit status
alone, even with zero loop fuel; classification can never produce `TimedOut`;
and concretely a hook sleeping 1000ms run with deadline 0 returns `Ok`. -/
theorem C4_zero_deadline_blocks_until_exit :
    (∀ (hook : String) (child : ProcessModel) (eg ec : Nat),
      run_hook_with_timeout hook child 0 eg ec 0 =
        .ok (hook_result_from_output hook child.output) false) ∧
    (∀ (hook hk : String) (o : Output),
      hook_result_from_output hook o ≠ .TimedOut hk) ∧
    run_hook_with_timeout "/repo/.git/hooks/post-commit"
      ⟨some (millisToNanos 1000), some 0, [], []⟩ 0 0 0 0 =
      .ok (.Ok "/repo/.git/hooks/post-commit") false := by
  refine ⟨fun hook child eg ec => by simp [run_hook_with_timeout], ?_, by decide⟩
  intro hook hk o
  unfold hook_result_from_output
  split <;> simp

/-- C5: classification maps exit status 0 to `Ok` and any other status —
including an absent code after termination by signal — to `RunNotSuccessful`
carrying the optional exit code and both streams decoded with
`String::from_utf8_lossy`, which is total (invalid bytes are replaced, never
an error). -/
theorem C5_outcome_classification (hook : String) (o : Output) :
    (o.code = some 0 → hook_result_from_output hook o = .Ok hook) ∧
    (o.code ≠ some 0 →
      hook_result_from_output hook o =
        .RunNotSuccessful o.code (utf8Lossy o.stdout) (utf8Lossy o.stderr) hook) := by
  unfold hook_result_from_output
  constructor
  · intro h; rw [if_pos h]
  · intro h; rw [if_neg h]

/-- Witness for C5: a zero exit status and a signal-terminated status with
invalid UTF-8 on stdout. -/
theorem C5_outcome_classification_witness :
    hook_result_from_output "/repo/.git/hooks/commit-msg" ⟨some 0, [], []⟩ =
      .Ok "/repo/.git/hooks/commit-msg" ∧
    hook_result_from_output "/repo/.git/hooks/commit-msg"
        ⟨none, [0x61, 0xFF], [0x62]⟩ =
      .RunNotSuccessful none (utf8Lossy [0x61, 0xFF]) (utf8Lossy [0x62])
        "/repo/.git/hooks/commit-msg" :=
  ⟨(C5_outcome_classification _ _).1 rfl,
   (C5_outcome_classification _ _).2 (by decide)⟩

/-- C6: the façade conversion maps a successful run and the no-hook-found case
to the caller-visible `Ok`, a non-successful run to `NotOk` carrying exactly
stdout concatenated with stderr, and a timed-out run to the distinct
`TimedOut` value, which is equal to neither `Ok` nor any `NotOk`. -/
theorem C6_facade_result_mapping :
    (∀ h, hookResultFrom (.Ok h) = .Ok) ∧
    hookResultFrom .NoHookFound = .Ok ∧
    (∀ c so se h, hookResultFrom (.RunNotSuccessful c so se h) = .NotOk (so ++ se)) ∧
    (∀ h, hookResultFrom (.TimedOut h) = .TimedOut) ∧
    (∀ s, AsyncHookResult.TimedOut ≠ .NotOk s) ∧
    AsyncHookResult.TimedOut ≠ .Ok := by
  refine ⟨fun _ => rfl, rfl, fun _ _ _ _ => rfl, fun _ => rfl,
    fun s h => ?_, fun h => ?_⟩ <;> cases h

/-- C7: with no `core.hooksPath` configured, resolution returns the result of
search mode: the candidate list is the default hooks directory followed by the
right-trimmed override directories, each joined under the `.git` directory and
the hook name; the first existing candidate is returned, and when none exists
the first (default-directory) candidate — the head of the list — is returned. -/
theorem C7_search_mode (expand : String → Option String) (fs : String → Bool)
    (repo : Repo) (others : Option (List String)) (hook : String)
    (hcfg : repo.configHooksPath = none) :
    HookPaths.new expand fs repo others hook =
      .ok ⟨repo.gitDir, find_hook fs repo.gitDir others hook,
        repo.workdir.getD repo.gitDir⟩ ∧
    find_hook fs repo.gitDir others hook =
      (((DEFAULT_HOOKS_PATH :: (others.getD []).map trimEndSlashes).map
          (fun p => pathJoin (pathJoin repo.gitDir p) hook)).find? fs).getD
        (pathJoin (pathJoin repo.gitDir DEFAULT_HOOKS_PATH) hook) ∧
    ((DEFAULT_HOOKS_PATH :: (others.getD []).map trimEndSlashes).map
        (fun p => pathJoin (pathJoin repo.gitDir p) hook)).head? =
      some (pathJoin (pathJoin repo.gitDir DEFAULT_HOOKS_PATH) hook) := by
  refine ⟨?_, ?_, by simp⟩
  · unfold HookPaths.new
    rw [hcfg]
  · simp only [find_hook]
    rw [findHookLoop_eq_findFirst]
    cases ((DEFAULT_HOOKS_PATH :: (others.getD []).map trimEndSlashes).map
        (fun p => pathJoin (pathJoin repo.gitDir p) hook)).find? fs <;> rfl

/-- Witness for C7: an unconfigured repository with one override directory and
an empty filesystem resolves to the default candidate. -/
theorem C7_search_mode_witness :
    HookPaths.new expandFix fsNone repoNoCfg (some ["extra/"]) "pre-commit" =
      .ok ⟨"/repo/.git", "/repo/.git/hooks/pre-commit", "/wd"⟩ := by
  have h :=
    (C7_search_mode expandFix fsNone repoNoCfg (some ["extra/"]) "pre-commit" rfl).1
  have hf : find_hook fsNone repoNoCfg.gitDir (some ["extra/"]) "pre-commit" =
      "/repo/.git/hooks/pre-commit" := by decide
  rw [h, hf]
  rfl

/-- C8: for an always-false completion predicate and a 190ms deadline (with
1ns of loop overhead between iteration entry and the guard's clock read), the
loop wakes up from exactly 8 sleeps — the seven uncapped quadratic sleeps
1,4,9,16,25,36,49ms and one capped sleep clamped to the remaining budget —
and then returns false. -/
theorem C8_backoff_190ms_takes_8_polls :
    timeout_with_quadratic_backoff 20 (millisToNanos 190) (fun _ => false) 1 0 =
      .timedOut [1000000, 4000000, 9000000, 16000000, 25000000, 36000000,
        49000000, 49999992] ∧
    [1000000, 4000000, 9000000, 16000000, 25000000, 36000000,
      49000000, 49999992].length = 8 := by
  constructor <;> decide

/-- C10: the code reads `timer.elapsed()` twice — once in the deadline guard
and again in `timeout - timer.elapsed()` — so when the clock crosses the
deadline between the two reads (here by a single nanosecond, `ec = 1`), the
`Duration` subtraction underflows and the loop panics: the claimed safety
property fails on the code.  Concretely: deadline 1ms, always-false predicate;
the first iteration sleeps the clamped 999999ns, leaving the clock exactly at
the deadline, and the second iteration passes the guard but panics at the
clamp. -/
theorem C10_remaining_time_subtraction_panics :
    timeout_with_quadratic_backoff 3 1000000 (fun _ => false) 0 1 =
      .panicked [999999] := by
  decide

/-- C9: on POSIX, `found()` is true exactly when the hook path exists and at
least one of the three execute permission bits (owner, group, other) is set in
its mode; on Windows `found()` degenerates to bare existence because
`is_executable` is unconditionally true. -/
theorem C9_found_iff_exists_and_executable (meta : String → Option Nat)
    (hp : HookPaths) :
    (HookPaths.found meta hp = true ↔
      pathExists meta hp.hook = true ∧
      ∃ m, meta hp.hook = some m ∧
        (m.testBit 0 = true ∨ m.testBit 3 = true ∨ m.testBit 6 = true)) ∧
    (HookPaths.foundWindows meta hp = true ↔ pathExists meta hp.hook = true) := by
  constructor
  · cases h : meta hp.hook with
    | none => simp [HookPaths.found, is_executable, pathExists, h]
    | some m =>
      simp only [HookPaths.found, is_executable, pathExists, h, Option.isSome_some,
        Bool.true_and, Option.some.injEq, bne_iff_ne, ne_eq, true_and]
      constructor
      · intro hb
        exact ⟨m, rfl, (land_exec_bits m).1 (by simpa using hb)⟩
      · rintro ⟨m2, hm2, hbits⟩
        cases hm2
        simpa using (land_exec_bits m).2 hbits
  · simp [HookPaths.foundWindows, is_executable_windows, pathExists]
